import Mathlib

/-!
Verification development for the viam-modules/audio microphone module.

The development shallowly embeds the core data path of the repository:

* the lock-free circular sample buffer (`AudioBuffer`, declared in
  `src/audio_stream.hpp`; its method bodies are not part of the available
  sources, so they are modelled from the specification, section 4.1);
* the wall-clock timestamp derivation
  (`InputStreamContext::calculate_sample_timestamp`, `src/audio_stream.cpp`);
* the MP3 frame-accumulation buffering (`src/mp3_encoder.cpp`);
* the chunked streaming loop of `Microphone::get_audio`
  (`src/microphone.cpp`).

Machine integers are modelled as `Nat`/`Int`; the one place where unsigned
64-bit overflow is reachable (the nanosecond multiplication inside the
timestamp computation) is modelled with an explicit reduction modulo `2 ^ 64`.
-/

namespace AudioVerif

/-! ### Ring buffer (`AudioBuffer`)

`src/audio_stream.hpp` (lines 21-42) declares `write_sample`, `read_samples`
and `get_write_position`; the translation unit defining them is not among the
available sources, so the definitions below are modelled from the spec. -/

/-- Modelled from the spec: the state of `AudioBuffer` (spec section 3,
"RingBuffer").  `store` maps a slot index (taken modulo `capacity`) to the
16-bit sample held in that slot (sample values are modelled as `Int`);
`totalWritten` is the monotonically increasing write counter
(`total_samples_written` in `src/audio_stream.hpp`). -/
structure AudioBuffer where
  capacity : Nat
  store : Nat → Int
  totalWritten : Nat

/-- A freshly constructed buffer: value-initialised (zeroed) slots, write
counter zero (`src/test/audio_stream_test.cpp`, `CircularBufferStartsAtZero`). -/
def mkAudioBuffer (capacity : Nat) : AudioBuffer :=
  { capacity := capacity, store := fun _ => 0, totalWritten := 0 }

/-- Modelled from the spec: `write_sample(value)` stores `value` at slot
`total_written mod C`, then increments `total_written` (spec section 4.1). -/
def write_sample (b : AudioBuffer) (v : Int) : AudioBuffer :=
  { b with
    store := fun j => if j = b.totalWritten % b.capacity then v else b.store j
    totalWritten := b.totalWritten + 1 }

/-- Modelled from the spec: `read_samples(dest, count, cursor)` snapshots
`w = total_written`, resynchronises a cursor staler than `w - C` to `w - C`
("clamp/resynchronize rather than read garbage"), copies
`min(count, w - cursor)` samples starting at the (resynchronised) cursor, and
advances the cursor by the number of samples read (spec section 4.1).  The
result is the pair (samples read, new cursor value). -/
def read_samples (b : AudioBuffer) (count : Nat) (cursor : Nat) : List Int × Nat :=
  let w := b.totalWritten
  let start := max cursor (w - b.capacity)
  let n := min count (w - start)
  ((List.range n).map fun i => b.store ((start + i) % b.capacity), start + n)

/-- Modelled from the spec: `get_write_position()` returns a snapshot of
`total_samples_written` (spec section 4.1). -/
def get_write_position (b : AudioBuffer) : Nat := b.totalWritten

/-- A sequence of `write_sample` calls, one per list element (as the PortAudio
callback does in `src/microphone.cpp`, lines 480-482). -/
def write_many (b : AudioBuffer) (vs : List Int) : AudioBuffer :=
  vs.foldl write_sample b

theorem write_many_capacity (b : AudioBuffer) (vs : List Int) :
    (write_many b vs).capacity = b.capacity := by
  induction vs generalizing b with
  | nil => rfl
  | cons v vs ih => simpa [write_many, write_sample] using ih (write_sample b v)

theorem write_many_totalWritten (b : AudioBuffer) (vs : List Int) :
    (write_many b vs).totalWritten = b.totalWritten + vs.length := by
  induction vs generalizing b with
  | nil => rfl
  | cons v vs ih =>
    have h : (write_many (write_sample b v) vs).totalWritten
        = (write_sample b v).totalWritten + vs.length := ih _
    have h2 : (write_sample b v).totalWritten = b.totalWritten + 1 := rfl
    show (write_many (write_sample b v) vs).totalWritten = b.totalWritten + (v :: vs).length
    rw [h, h2]
    simp only [List.length_cons]
    omega

theorem mod_ne_of_between {C a b : Nat} (h1 : a < b) (h2 : b < a + C) :
    b % C ≠ a % C := by
  intro h
  have hmod : a ≡ b [MOD C] := h.symm
  have hdvd : C ∣ b - a := (Nat.modEq_iff_dvd' h1.le).mp hmod
  have hle : C ≤ b - a := Nat.le_of_dvd (by omega) hdvd
  omega

/-- Key slot lemma: after writing `vs` on top of buffer state `b`, the slot of
the `j`-th newly written sample still holds `vs[j]`, provided fewer than
`capacity` samples were written after it. -/
theorem write_many_store (b : AudioBuffer) (vs : List Int) (j : Nat)
    (hj : j < vs.length) (hfresh : vs.length ≤ j + b.capacity) :
    (write_many b vs).store ((b.totalWritten + j) % b.capacity) = vs.getD j 0 := by
  induction vs using List.reverseRecOn generalizing j with
  | nil => simp at hj
  | append_singleton l a ih =>
    have hrw : write_many b (l ++ [a]) = write_sample (write_many b l) a := by
      simp [write_many, List.foldl_append]
    have hcap : (write_many b l).capacity = b.capacity := write_many_capacity b l
    have htw : (write_many b l).totalWritten = b.totalWritten + l.length :=
      write_many_totalWritten b l
    rw [hrw]
    by_cases hj2 : j = l.length
    · subst hj2
      simp only [write_sample, hcap, htw, if_pos rfl]
      simp
    · have hjl : j < l.length := by
        have := hj
        simp only [List.length_append, List.length_singleton] at this
        omega
      have hne : (b.totalWritten + l.length) % b.capacity ≠
          (b.totalWritten + j) % b.capacity := by
        apply mod_ne_of_between
        · omega
        · have : l.length + 1 ≤ j + b.capacity := by
            have := hfresh
            simp only [List.length_append, List.length_singleton] at this
            omega
          omega
      simp only [write_sample, hcap, htw]
      rw [if_neg (by exact fun h => hne h.symm)]
      have hfresh2 : l.length ≤ j + b.capacity := by
        have := hfresh
        simp only [List.length_append, List.length_singleton] at this
        omega
      rw [ih j hjl hfresh2]
      exact (List.getD_append l [a] 0 j hjl).symm

/-- `take` as a table of `getD` lookups; used to phrase in-order reads. -/
theorem take_eq_range_map_getD (vs : List Int) (k : Nat) (hk : k ≤ vs.length) :
    vs.take k = (List.range k).map fun i => vs.getD i 0 := by
  apply List.ext_getElem
  · simp [hk]
  · intro i h1 h2
    simp only [List.getElem_take, List.getElem_map, List.getElem_range]
    rw [List.getD_eq_getElem]

/-- Content of a fresh-window read: each returned element is exactly the sample
written at the corresponding absolute index. -/
theorem read_samples_content (C : Nat) (vs : List Int) (count start : Nat)
    (hstart : vs.length ≤ start + C) :
    ((List.range (min count (vs.length - start))).map
        fun i => (write_many (mkAudioBuffer C) vs).store ((start + i) % C))
      = (List.range (min count (vs.length - start))).map
          fun i => vs.getD (start + i) 0 := by
  apply List.map_congr_left
  intro i hi
  rw [List.mem_range] at hi
  have hidx : start + i < vs.length := by omega
  have h := write_many_store (mkAudioBuffer C) vs (start + i) hidx (by simp [mkAudioBuffer]; omega)
  simpa [mkAudioBuffer] using h

/-- C1: after `N` `write_sample` calls, a `read_samples` call whose cursor `c`
requests no overwritten slot (`c ≥ w - C` for the snapshot `w = N`) returns
exactly `min(count, w - c)` samples, advances the cursor by exactly that
amount, the returned samples are the written values starting at index `c` in
order, and in particular for `c = 0` and `count = K ≤ N` the read returns the
first `K` written values in order. -/
theorem read_samples_fresh_exact (C : Nat) (vs : List Int) (count c : Nat)
    (hcur : c ≤ vs.length) (hfresh : vs.length ≤ c + C) :
    (read_samples (write_many (mkAudioBuffer C) vs) count c).1.length
        = min count (vs.length - c)
      ∧ (read_samples (write_many (mkAudioBuffer C) vs) count c).2
        = c + min count (vs.length - c)
      ∧ (read_samples (write_many (mkAudioBuffer C) vs) count c).1
        = (List.range (min count (vs.length - c))).map (fun i => vs.getD (c + i) 0)
      ∧ (c = 0 → count ≤ vs.length →
          (read_samples (write_many (mkAudioBuffer C) vs) count c).1 = vs.take count) := by
  have hcap : (write_many (mkAudioBuffer C) vs).capacity = C := by
    rw [write_many_capacity]; rfl
  have htw : (write_many (mkAudioBuffer C) vs).totalWritten = vs.length := by
    rw [write_many_totalWritten]; simp [mkAudioBuffer]
  have hmax : max c (vs.length - C) = c := by omega
  have hcontent := read_samples_content C vs count c hfresh
  refine ⟨?_, ?_, ?_, ?_⟩
  · simp [read_samples, hcap, htw, hmax]
  · simp [read_samples, hcap, htw, hmax]
  · simp only [read_samples, hcap, htw, hmax]
    exact hcontent
  · intro hc hcount
    subst hc
    simp only [read_samples, hcap, htw, hmax]
    have hmin : min count (vs.length - 0) = count := by omega
    rw [hmin] at hcontent ⊢
    rw [hcontent, take_eq_range_map_getD vs count hcount]
    simp

/-- Witness for C1: five samples written into a buffer of capacity 8, read
back from cursor 0: the first three written values, in order, with the cursor
advanced to 3. -/
theorem read_samples_fresh_exact_witness :
    (read_samples (write_many (mkAudioBuffer 8) [100, 200, 300, 400, 500]) 3 0).1
        = [100, 200, 300]
      ∧ (read_samples (write_many (mkAudioBuffer 8) [100, 200, 300, 400, 500]) 3 0).2 = 3 := by
  have h := read_samples_fresh_exact 8 [100, 200, 300, 400, 500] 3 0
    (by decide) (by decide)
  exact ⟨by rw [h.2.2.2 rfl (by decide)]; decide, by rw [h.2.1]; decide⟩

/-- C2: after writing `N > C` samples, a read whose cursor is staler than
`w - C` is resynchronised to `w - C`: it returns `min(count, C) ≤ C` samples,
each of which is one of the `C` most recently written values (the sample
written at absolute index `N - C + i`), never a value from an overwritten
slot. -/
theorem read_samples_wraparound (C : Nat) (vs : List Int) (count c : Nat)
    (hover : C < vs.length) (hstale : c < vs.length - C) :
    (read_samples (write_many (mkAudioBuffer C) vs) count c).1.length ≤ C
      ∧ (read_samples (write_many (mkAudioBuffer C) vs) count c).1
        = (List.range (min count C)).map (fun i => vs.getD (vs.length - C + i) 0)
      ∧ (read_samples (write_many (mkAudioBuffer C) vs) count c).2
        = (vs.length - C) + min count C := by
  have hcap : (write_many (mkAudioBuffer C) vs).capacity = C := by
    rw [write_many_capacity]; rfl
  have htw : (write_many (mkAudioBuffer C) vs).totalWritten = vs.length := by
    rw [write_many_totalWritten]; simp [mkAudioBuffer]
  have hmax : max c (vs.length - C) = vs.length - C := by omega
  have hwin : vs.length - (vs.length - C) = C := by omega
  have hcontent := read_samples_content C vs count (vs.length - C) (by omega)
  rw [hwin] at hcontent
  refine ⟨?_, ?_, ?_⟩
  · simp only [read_samples, hcap, htw, hmax, hwin]
    simp
  · simp only [read_samples, hcap, htw, hmax, hwin]
    exact hcontent
  · simp [read_samples, hcap, htw, hmax, hwin]

/-- Witness for C2: five samples written into a buffer of capacity 3; a read
from the stale cursor 0 yields only the three most recent values `[3, 4, 5]`
(the values `1, 2` were overwritten), with the cursor resynchronised to 5. -/
theorem read_samples_wraparound_witness :
    (read_samples (write_many (mkAudioBuffer 3) [1, 2, 3, 4, 5]) 10 0).1 = [3, 4, 5]
      ∧ (read_samples (write_many (mkAudioBuffer 3) [1, 2, 3, 4, 5]) 10 0).1.length ≤ 3 := by
  have h := read_samples_wraparound 3 [1, 2, 3, 4, 5] 10 0 (by decide) (by decide)
  exact ⟨by rw [h.2.1]; decide, h.1⟩

/-! ### Timestamp derivation (`InputStreamContext::calculate_sample_timestamp`)

`src/audio_stream.cpp`, lines 12-22.  `frame_number` and `elapsed_ns` are
`uint64_t`; the product `frame_number * NANOSECONDS_PER_SECOND` therefore
wraps modulo `2 ^ 64`.  The subsequent construction of
`std::chrono::nanoseconds` (a signed 64-bit representation) from the unsigned
quotient is modelled as the usual two's-complement conversion. -/

def NANOSECONDS_PER_SECOND : Nat := 1000000000

def UINT64_CARD : Nat := 2 ^ 64

/-- Two's-complement reinterpretation of a `uint64_t` value (< `2 ^ 64`) as a
signed 64-bit quantity, as happens when `elapsed_ns` is passed to the
`std::chrono::nanoseconds` constructor. -/
def toInt64 (n : Nat) : Int :=
  if n < 2 ^ 63 then (n : Int) else (n : Int) - (2 ^ 64 : Nat)

/-- The audio format of a stream context (`vsdk::audio_info` fields used by
the timestamp computation). -/
structure StreamInfo where
  sampleRateHz : Nat
  numChannels : Nat
deriving DecidableEq

/-- `InputStreamContext::calculate_sample_timestamp` (`src/audio_stream.cpp`,
lines 12-22): `frame_number = sample_number / num_channels` (integer
division), `elapsed_ns = frame_number * NANOSECONDS_PER_SECOND / sample_rate_hz`
in `uint64_t` arithmetic (the product reduced modulo `2 ^ 64`), and the result
is `stream_start_time + elapsed_ns`, expressed in nanoseconds since the epoch
(`streamStartTimeNs` is the anchor captured on the first callback). -/
def calculate_sample_timestamp (info : StreamInfo) (streamStartTimeNs : Int)
    (sampleNumber : Nat) : Int :=
  let frameNumber := sampleNumber / info.numChannels
  let elapsedNs := frameNumber * NANOSECONDS_PER_SECOND % UINT64_CARD / info.sampleRateHz
  streamStartTimeNs + toInt64 elapsedNs

/-- Counterexample to C4 as stated: for a mono context with
`sample_rate_hz = 1` anchored at 0, the timestamp of sample
`18446744074` is computed through a wrapped 64-bit product and differs from
`stream_start_time + floor(sample_index / num_channels * 1e9 / sample_rate_hz)`
(which would be `18446744074000000000`). -/
theorem calculate_sample_timestamp_overflow_counterexample :
    calculate_sample_timestamp ⟨1, 1⟩ 0 18446744074 = 290448384
      ∧ calculate_sample_timestamp ⟨1, 1⟩ 0 18446744074
        ≠ 0 + ((18446744074 / 1 * 1000000000 / 1 : Nat) : Int) := by
  constructor
  · rfl
  · intro h
    rw [show calculate_sample_timestamp ⟨1, 1⟩ 0 18446744074 = 290448384 from rfl] at h
    norm_num at h

/-- C4 (amended): whenever the 64-bit product does not overflow
(`(sample_index / num_channels) * 1e9 < 2 ^ 63`), the computed timestamp is
exactly `stream_start_time` plus
`floor((sample_index / num_channels) * 1e9 / sample_rate_hz)` nanoseconds; in
particular the timestamp of sample 0 is `stream_start_time`, and for a mono
context the timestamp of sample `sample_rate_hz` is exactly
`stream_start_time + 1e9` nanoseconds (one second). -/
theorem calculate_sample_timestamp_linear (info : StreamInfo) (start : Int)
    (n : Nat) (hch : 0 < info.numChannels) (hrate : 0 < info.sampleRateHz)
    (hov : n / info.numChannels * 1000000000 < 2 ^ 63) :
    calculate_sample_timestamp info start n
        = start + ((n / info.numChannels * 1000000000 / info.sampleRateHz : Nat) : Int)
      ∧ calculate_sample_timestamp info start 0 = start
      ∧ (info.numChannels = 1 →
          info.sampleRateHz * 1000000000 < 2 ^ 63 →
          calculate_sample_timestamp info start info.sampleRateHz
            = start + 1000000000) := by
  have key : ∀ m : Nat, m / info.numChannels * 1000000000 < 2 ^ 63 →
      calculate_sample_timestamp info start m
        = start + ((m / info.numChannels * 1000000000 / info.sampleRateHz : Nat) : Int) := by
    intro m hm
    have hlt : m / info.numChannels * 1000000000 < 2 ^ 64 := by
      calc m / info.numChannels * 1000000000 < 2 ^ 63 := hm
        _ < 2 ^ 64 := by norm_num
    have hq : m / info.numChannels * 1000000000 / info.sampleRateHz < 2 ^ 63 :=
      lt_of_le_of_lt (Nat.div_le_self _ _) hm
    simp only [calculate_sample_timestamp, NANOSECONDS_PER_SECOND, UINT64_CARD, toInt64]
    rw [Nat.mod_eq_of_lt hlt, if_pos hq]
  refine ⟨key n hov, ?_, ?_⟩
  · have h0 := key 0 (by simp)
    simpa using h0
  · intro hmono hrateov
    have h1 := key info.sampleRateHz (by simpa [hmono] using hrateov)
    rw [h1, hmono]
    simp [Nat.mul_div_cancel_left _ hrate]

/-- Witness for the amended C4: a mono 44100 Hz context anchored at 500 ns;
sample 44100 is stamped exactly one second after the anchor, and sample 0 at
the anchor itself. -/
theorem calculate_sample_timestamp_linear_witness :
    calculate_sample_timestamp ⟨44100, 1⟩ 500 44100 = 500 + 1000000000
      ∧ calculate_sample_timestamp ⟨44100, 1⟩ 500 0 = 500 := by
  have h := calculate_sample_timestamp_linear ⟨44100, 1⟩ 500 44100
    (by decide) (by decide) (by norm_num)
  exact ⟨h.2.2 rfl (by norm_num), h.2.1⟩

/-! ### MP3 frame accumulation (`src/mp3_encoder.cpp`)

The codec itself (LAME) is external; the model records, for every call to the
block-encode primitive `lame_encode_buffer`, the arguments handed to it: the
per-channel sample buffers and the `num_samples_per_channel` count.  The
encoded byte output is opaque and not modelled. -/

/-- `deinterleave_samples` (`src/mp3_encoder.cpp`, lines 183-196): splits an
interleaved stereo sample list into (left, right); `num_frames = size / 2`,
`left[i] = s[2i]`, `right[i] = s[2i+1]`. -/
def deinterleave_samples (interleaved : List Int) : List Int × List Int :=
  let numFrames := interleaved.length / 2
  ((List.range numFrames).map fun i => interleaved.getD (2 * i) 0,
   (List.range numFrames).map fun i => interleaved.getD (2 * i + 1) 0)

/-- One invocation of `lame_encode_buffer`: the left/right channel buffers the
pointers refer to, and the `num_samples_per_channel` argument.  The codec
reads only the first `count` entries of each buffer. -/
structure EncodeCall where
  left : List Int
  right : List Int
  count : Nat
deriving DecidableEq

/-- `encode_samples` (`src/mp3_encoder.cpp`, lines 26-68), as the
`lame_encode_buffer` invocation it performs.  Stereo: the samples are
deinterleaved and `num_samples_per_channel = left_samples.size()`.  Mono: the
left pointer is the interleaved buffer itself and `right` is null, but
`num_samples_per_channel` is again read from `left_samples.size()` — the
helper vector that is only filled in the stereo branch, so it is `0` here. -/
def encode_samples (numChannels : Nat) (samples : List Int) : EncodeCall :=
  if numChannels = 2 then
    let lr := deinterleave_samples samples
    { left := lr.1, right := lr.2, count := lr.1.length }
  else
    { left := samples, right := [], count := ([] : List Int).length }

/-- The state of `MP3EncoderContext` (`src/mp3_encoder.hpp`, lines 48-60) that
the accumulation logic manipulates; `hasEncoder` models `ctx.encoder != nullptr`. -/
structure MP3EncoderContext where
  hasEncoder : Bool
  numChannels : Nat
  buffer : List Int
  buffer_start_position : Nat
  total_samples_encoded : Nat
deriving DecidableEq

/-- The `while (ctx.buffer.size() >= samples_per_frame)` loop of
`buffer_and_encode_samples` (`src/mp3_encoder.cpp`, lines 125-138): repeatedly
extract the first `spf` buffered samples, encode them, drop them from the
buffer.  Returns the remaining buffer and the encode calls in order.  The
`fuel` argument (instantiated with the buffer length, an upper bound on the
number of iterations whenever `spf ≥ 1`) only makes the recursion structural;
for `spf = 0` the C++ loop would not terminate, which is unreachable for an
initialised encoder. -/
def encodeFrames (numChannels spf : Nat) : Nat → List Int → List Int × List EncodeCall
  | 0, buf => (buf, [])
  | fuel + 1, buf =>
    if spf ≤ buf.length then
      let call := encode_samples numChannels (buf.take spf)
      let rest := encodeFrames numChannels spf fuel (buf.drop spf)
      (rest.1, call :: rest.2)
    else
      (buf, [])

/-- `buffer_and_encode_samples` (`src/mp3_encoder.cpp`, lines 104-139):
throws (`none`) if the encoder is not initialised; otherwise records the chunk
start position when the buffer transitions from empty to non-empty, appends
the incoming samples, encodes every complete frame of
`samples_per_frame = 1152 * num_channels` samples, and advances
`buffer_start_position` and `total_samples_encoded` by `samples_per_frame`
per encoded frame.  Returns the new context state and the encode calls made. -/
def buffer_and_encode_samples (ctx : MP3EncoderContext) (samples : List Int)
    (chunk_start_position : Nat) : Option (MP3EncoderContext × List EncodeCall) :=
  if ctx.hasEncoder = false then none
  else
    let spf := 1152 * ctx.numChannels
    let startPos := if ctx.buffer.isEmpty then chunk_start_position
                    else ctx.buffer_start_position
    let buf := ctx.buffer ++ samples
    let res := encodeFrames ctx.numChannels spf buf.length buf
    some ({ ctx with
            buffer := res.1
            buffer_start_position := startPos + spf * res.2.length
            total_samples_encoded := ctx.total_samples_encoded + spf * res.2.length },
          res.2)

/-- `flush_mp3_encoder` (`src/mp3_encoder.cpp`, lines 141-167): throws
(`none`) on a null encoder; otherwise encodes any remaining buffered samples
(even an incomplete frame) in a single `encode_samples` call and clears the
buffer, then drains LAME's internal buffers (external, not modelled). -/
def flush_mp3_encoder (ctx : MP3EncoderContext) :
    Option (MP3EncoderContext × List EncodeCall) :=
  if ctx.hasEncoder = false then none
  else if ctx.buffer.isEmpty then some (ctx, [])
  else some ({ ctx with buffer := [] }, [encode_samples ctx.numChannels ctx.buffer])

/-- The loop leaves fewer than `spf` samples whenever it is given enough fuel
(`buf.length` suffices for `spf ≥ 1`). -/
theorem encodeFrames_rest_lt (numChannels spf : Nat) (hspf : 0 < spf) :
    ∀ fuel buf, buf.length ≤ fuel →
      (encodeFrames numChannels spf fuel buf).1.length < spf := by
  intro fuel
  induction fuel with
  | zero =>
    intro buf hbuf
    have : buf.length = 0 := by omega
    simp [encodeFrames, this]
    omega
  | succ fuel ih =>
    intro buf hbuf
    by_cases h : spf ≤ buf.length
    · have hdrop : (buf.drop spf).length ≤ fuel := by
        simp only [List.length_drop]
        omega
      simp only [encodeFrames, if_pos h]
      exact ih (buf.drop spf) hdrop
    · simp only [encodeFrames, if_neg h]
      omega

/-- The loop consumes exactly `spf` samples per produced encode call. -/
theorem encodeFrames_length_eq (numChannels spf : Nat) :
    ∀ fuel buf,
      (encodeFrames numChannels spf fuel buf).1.length
          + spf * (encodeFrames numChannels spf fuel buf).2.length
        = buf.length := by
  intro fuel
  induction fuel with
  | zero => intro buf; simp [encodeFrames]
  | succ fuel ih =>
    intro buf
    by_cases h : spf ≤ buf.length
    · simp only [encodeFrames, if_pos h, List.length_cons, Nat.mul_succ]
      have := ih (buf.drop spf)
      simp only [List.length_drop] at this
      omega
    · simp [encodeFrames, if_neg h]

/-- Every frame handed to the codec by the loop is `buf.drop (spf * i) |>.take spf`,
the `i`-th consecutive block of `spf` buffered samples, in order. -/
theorem encodeFrames_calls (numChannels spf : Nat) :
    ∀ fuel buf i, i < (encodeFrames numChannels spf fuel buf).2.length →
      (encodeFrames numChannels spf fuel buf).2.get? i
        = some (encode_samples numChannels ((buf.drop (spf * i)).take spf)) := by
  intro fuel
  induction fuel with
  | zero => intro buf i h; simp [encodeFrames] at h
  | succ fuel ih =>
    intro buf i h
    by_cases hle : spf ≤ buf.length
    · simp only [encodeFrames, if_pos hle] at h ⊢
      cases i with
      | zero => simp
      | succ i =>
        simp only [List.get?_cons_succ]
        have hh : i < (encodeFrames numChannels spf fuel (buf.drop spf)).2.length := by
          simp only [List.length_cons] at h
          omega
        rw [ih (buf.drop spf) i hh]
        have hdd : List.drop (spf * i) (List.drop spf buf)
            = List.drop (spf * (i + 1)) buf := by
          rw [List.drop_drop]
          congr 1
          ring
        rw [hdd]
    · simp only [encodeFrames, if_neg hle] at h
      simp at h

/-- C8: for an initialised encoder (non-null, positive channel count), every
`buffer_and_encode_samples` call leaves strictly fewer than
`frame_size = 1152 * num_channels` samples pending, and every
`flush_mp3_encoder` call leaves the pending buffer empty. -/
theorem mp3_pending_buffer_invariant (ctx : MP3EncoderContext) (samples : List Int)
    (pos : Nat) (henc : ctx.hasEncoder = true) (hch : 0 < ctx.numChannels) :
    (∀ res, buffer_and_encode_samples ctx samples pos = some res →
        res.1.buffer.length < 1152 * ctx.numChannels)
      ∧ (∀ res, flush_mp3_encoder ctx = some res → res.1.buffer = []) := by
  constructor
  · intro res hres
    simp only [buffer_and_encode_samples, henc, Bool.true_eq_false, if_false] at hres
    have hx := Option.some.inj hres
    subst hx
    have hlt := encodeFrames_rest_lt ctx.numChannels (1152 * ctx.numChannels)
      (by omega) (ctx.buffer ++ samples).length (ctx.buffer ++ samples) le_rfl
    simpa using hlt
  · intro res hres
    simp only [flush_mp3_encoder, henc, Bool.true_eq_false, if_false] at hres
    by_cases hemp : ctx.buffer.isEmpty
    · rw [if_pos hemp] at hres
      have hx := Option.some.inj hres
      subst hx
      exact List.isEmpty_iff.mp hemp
    · rw [if_neg hemp] at hres
      have hx := Option.some.inj hres
      subst hx
      rfl

/-- Witness for C8: a mono encoder with an empty pending buffer given three
samples buffers all of them (3 < 1152), and flushing a context holding those
three samples empties the buffer. -/
theorem mp3_pending_buffer_invariant_witness :
    (MP3EncoderContext.mk true 1 [1, 2, 3] 0 0).buffer.length < 1152 * 1
      ∧ ∀ res, flush_mp3_encoder (MP3EncoderContext.mk true 1 [1, 2, 3] 0 0)
          = some res → res.1.buffer = [] := by
  have h := mp3_pending_buffer_invariant (MP3EncoderContext.mk true 1 [] 0 0)
    [1, 2, 3] 0 rfl (by decide)
  have h2 := mp3_pending_buffer_invariant (MP3EncoderContext.mk true 1 [1, 2, 3] 0 0)
    [] 0 rfl (by decide)
  exact ⟨h.1 (MP3EncoderContext.mk true 1 [1, 2, 3] 0 0, []) (by decide), h2.2⟩

set_option maxRecDepth 100000 in
/-- C9 failing input: a mono context handed exactly one complete frame of 1152
samples performs one `lame_encode_buffer` call whose
`num_samples_per_channel` argument is `0`, not `1152`: the mono branch of
`encode_samples` reads the count from the (empty) stereo helper vector
`left_samples` (`src/mp3_encoder.cpp`, line 43), so the frame's samples are
never encoded.  A stereo context handed one complete frame of
`1152 * 2` samples correctly passes `1152` samples per channel. -/
theorem mono_encode_call_count_is_zero :
    (buffer_and_encode_samples (MP3EncoderContext.mk true 1 [] 0 0)
          (List.replicate 1152 7) 0).map (fun res => res.2.map fun call => call.count)
        = some [0]
      ∧ (encode_samples 2 (List.replicate 2304 7)).count = 1152
      ∧ (encode_samples 1 (List.replicate 1152 7)).count = 0 := by
  refine ⟨?_, ?_, ?_⟩
  · rfl
  · simp only [encode_samples, deinterleave_samples, reduceIte, List.length_map,
      List.length_range, List.length_replicate]
  · rfl

/-! ### `Microphone::get_audio` (`src/microphone.cpp`, lines 169-316)

The session loop is embedded as a step function over one poll iteration.  The
environment of an iteration (`PollObs`) carries what the loop observes: the
steady-clock value at the loop head (line 230), the identity of the device's
current context together with its configuration (lines 236-243), the
context's write position (lines 247 and 253), and the steady-clock value at
the point the duration timer would start (line 294).  Context identities are
abstract (`Nat`); sample data is given by `stream ctx i`, the sample the
context `ctx` holds at absolute index `i` (`read_samples` of a chunk whose
window has not been overwritten returns exactly these values, per the ring
buffer theorems above; `samples_per_chunk` never exceeds the ten-second
buffer capacity, so the defensive short-read branch at line 267 is
unreachable and is not modelled).  Wall-clock/steady-clock instants are
nanosecond counts (`Int`). -/

/-- `samples_per_chunk` as computed at `src/microphone.cpp` lines 220 and 243:
`(sample_rate * CHUNK_DURATION_SECONDS) * num_channels` with
`CHUNK_DURATION_SECONDS = 0.1`, truncated to `int`.  In exact (rational)
arithmetic this is `rate * channels / 10` rounded toward zero, which the
`Nat` division below computes. -/
def samples_per_chunk (rate ch : Nat) : Nat := rate * ch / 10

/-- The supported codec tag (`vsdk::audio_codecs::PCM_16`). -/
def PCM_16 : String := "pcm16"

/-- Entry bookkeeping of `get_audio` (`src/microphone.cpp`, lines 177-228):
the codec check happens before `active_streams_` is incremented; the
`samples_per_chunk <= 0` check happens after.  Returns the value of
`active_streams_` when control leaves this prologue and `some chunkSize` if
the session proceeds to the loop, `none` if it throws. -/
def getAudioSetup (codec : String) (rate ch : Nat) (activeStreams : Int) :
    Int × Option Nat :=
  if codec ≠ PCM_16 then (activeStreams, none)
  else
    let active := activeStreams + 1
    let spc := samples_per_chunk rate ch
    if spc = 0 then (active, none)
    else (active, some spc)

/-- One chunk as assembled at `src/microphone.cpp` lines 273-290, together
with ghost provenance fields used by the theorems: `ctxId` is the context the
samples were read from, and `wposAtDelivery` the write position observed by
the gating check (line 253) of the delivering iteration. -/
structure Chunk where
  ctxId : Nat
  startPos : Nat
  size : Nat
  seq : Nat
  sampleRate : Nat
  numChannels : Nat
  data : List Int
  wposAtDelivery : Nat
deriving DecidableEq

/-- What one poll iteration of the `get_audio` loop observes. -/
structure PollObs where
  now : Int
  devCtx : Nat
  devRate : Nat
  devCh : Nat
  wpos : Nat
  deliverNow : Int
deriving DecidableEq

/-- The per-session state of the `get_audio` loop (`src/microphone.cpp`,
lines 192-228): the duration timer, the sequence counter, the bound context
and cursor, the cached configuration, and ghost fields recording the
delivered chunks, why the session stopped, and when the first chunk was
delivered. -/
structure SessionState where
  stopped : Bool
  stoppedByHandler : Bool
  timerStarted : Bool
  endTime : Option Int
  seq : Nat
  boundCtx : Nat
  readPos : Nat
  sampleRate : Nat
  numChannels : Nat
  chunkSize : Nat
  delivered : List Chunk
  firstChunkTime : Option Int
deriving DecidableEq

/-- The state on entering the loop (`src/microphone.cpp`, lines 192-228):
no timer (`end_time = time_point::max()` is `none`), sequence 0, bound to the
device's current context with the cursor at its current write position, chunk
size computed from the current configuration. -/
def initialState (ctx0 rate ch w0 : Nat) : SessionState :=
  { stopped := false, stoppedByHandler := false, timerStarted := false
    endTime := none, seq := 0, boundCtx := ctx0, readPos := w0
    sampleRate := rate, numChannels := ch
    chunkSize := samples_per_chunk rate ch, delivered := [], firstChunkTime := none }

/-- The `now < end_time` loop condition (`src/microphone.cpp`, line 230);
`none` models `time_point::max()`. -/
def beforeEnd (now : Int) : Option Int → Bool
  | none => true
  | some e => decide (now < e)

/-- The reconfiguration check at the top of each iteration
(`src/microphone.cpp`, lines 232-250): if the device's context differs from
the bound one, re-bind, refresh the cached configuration, recompute
`samples_per_chunk`, and reset the cursor to the new context's write
position. -/
def rebindOnReconfig (s : SessionState) (o : PollObs) : SessionState :=
  if o.devCtx = s.boundCtx then s
  else
    { s with
      sampleRate := o.devRate, numChannels := o.devCh
      chunkSize := samples_per_chunk o.devRate o.devCh
      boundCtx := o.devCtx, readPos := o.wpos }

/-- The chunk assembled by a delivering iteration (`src/microphone.cpp`,
lines 262-290): exactly `chunkSize` samples of the bound context starting at
the cursor. -/
def mkChunk (stream : Nat → Nat → Int) (s : SessionState) (o : PollObs) : Chunk :=
  { ctxId := s.boundCtx, startPos := s.readPos, size := s.chunkSize, seq := s.seq
    sampleRate := s.sampleRate, numChannels := s.numChannels
    data := (List.range s.chunkSize).map fun i => stream s.boundCtx (s.readPos + i)
    wposAtDelivery := o.wpos }

/-- The duration bound in nanoseconds:
`std::chrono::milliseconds(static_cast<int64_t>(duration_seconds * 1000))`
(`src/microphone.cpp`, line 295).  The cast truncates toward zero, computed
here on the exact fraction `duration.num * 1000 / duration.den` (integer
division; for the positive durations this is applied to, truncation and floor
coincide, and the value equals `duration * 1000` truncated). -/
def durationBoundNs (duration : ℚ) : Int :=
  (duration.num * 1000 / (duration.den : Int)) * 1000000

/-- The duration-timer start (`src/microphone.cpp`, lines 292-297): on a
delivery with the timer not yet started and `duration_seconds > 0`, set
`end_time` to now plus the duration bound.  The ghost field `firstChunkTime`
records this instant. -/
def startTimer (duration : ℚ) (s : SessionState) (o : PollObs) : SessionState :=
  if s.timerStarted = false ∧ 0 < duration then
    { s with
      endTime := some (o.deliverNow + durationBoundNs duration)
      timerStarted := true
      firstChunkTime := some o.deliverNow }
  else s

/-- One iteration of the `get_audio` loop (`src/microphone.cpp`,
lines 230-308): check the loop condition, handle reconfiguration, gate on
`write_position - read_position >= samples_per_chunk` (sleeping otherwise),
read one chunk, advance the cursor and the sequence number, start the
duration timer if applicable, invoke the chunk handler and stop if it
returns `false`. -/
def sessionStep (duration : ℚ) (handler : Chunk → Bool) (stream : Nat → Nat → Int)
    (s : SessionState) (o : PollObs) : SessionState :=
  if s.stopped then s
  else if beforeEnd o.now s.endTime = false then { s with stopped := true }
  else
    let s1 := rebindOnReconfig s o
    if o.wpos - s1.readPos < s1.chunkSize then s1
    else
      let c := mkChunk stream s1 o
      let s2 := { s1 with
                  readPos := s1.readPos + s1.chunkSize
                  seq := s1.seq + 1
                  delivered := s1.delivered ++ [c] }
      let s3 := startTimer duration s2 o
      if handler c then s3 else { s3 with stopped := true, stoppedByHandler := true }

/-- A whole session: the loop run over a list of poll-iteration
observations. -/
def runSession (duration : ℚ) (handler : Chunk → Bool) (stream : Nat → Nat → Int)
    (s : SessionState) (obs : List PollObs) : SessionState :=
  obs.foldl (sessionStep duration handler stream) s

/-- Invariance of a predicate along a session run. -/
theorem runSession_inv (duration : ℚ) (handler : Chunk → Bool)
    (stream : Nat → Nat → Int) (P : SessionState → Prop)
    (hstep : ∀ s o, P s → P (sessionStep duration handler stream s o)) :
    ∀ obs s, P s → P (runSession duration handler stream s obs) := by
  intro obs
  induction obs with
  | nil => intro s hs; exact hs
  | cons o obs ih =>
    intro s hs
    exact ih (sessionStep duration handler stream s o) (hstep s o hs)

@[simp] theorem startTimer_stopped (d : ℚ) (s : SessionState) (o : PollObs) :
    (startTimer d s o).stopped = s.stopped := by
  unfold startTimer; split <;> rfl

@[simp] theorem startTimer_stoppedByHandler (d : ℚ) (s : SessionState) (o : PollObs) :
    (startTimer d s o).stoppedByHandler = s.stoppedByHandler := by
  unfold startTimer; split <;> rfl

@[simp] theorem startTimer_seq (d : ℚ) (s : SessionState) (o : PollObs) :
    (startTimer d s o).seq = s.seq := by
  unfold startTimer; split <;> rfl

@[simp] theorem startTimer_boundCtx (d : ℚ) (s : SessionState) (o : PollObs) :
    (startTimer d s o).boundCtx = s.boundCtx := by
  unfold startTimer; split <;> rfl

@[simp] theorem startTimer_readPos (d : ℚ) (s : SessionState) (o : PollObs) :
    (startTimer d s o).readPos = s.readPos := by
  unfold startTimer; split <;> rfl

@[simp] theorem startTimer_sampleRate (d : ℚ) (s : SessionState) (o : PollObs) :
    (startTimer d s o).sampleRate = s.sampleRate := by
  unfold startTimer; split <;> rfl

@[simp] theorem startTimer_numChannels (d : ℚ) (s : SessionState) (o : PollObs) :
    (startTimer d s o).numChannels = s.numChannels := by
  unfold startTimer; split <;> rfl

@[simp] theorem startTimer_chunkSize (d : ℚ) (s : SessionState) (o : PollObs) :
    (startTimer d s o).chunkSize = s.chunkSize := by
  unfold startTimer; split <;> rfl

@[simp] theorem startTimer_delivered (d : ℚ) (s : SessionState) (o : PollObs) :
    (startTimer d s o).delivered = s.delivered := by
  unfold startTimer; split <;> rfl

@[simp] theorem rebindOnReconfig_stopped (s : SessionState) (o : PollObs) :
    (rebindOnReconfig s o).stopped = s.stopped := by
  unfold rebindOnReconfig; split <;> rfl

@[simp] theorem rebindOnReconfig_stoppedByHandler (s : SessionState) (o : PollObs) :
    (rebindOnReconfig s o).stoppedByHandler = s.stoppedByHandler := by
  unfold rebindOnReconfig; split <;> rfl

@[simp] theorem rebindOnReconfig_endTime (s : SessionState) (o : PollObs) :
    (rebindOnReconfig s o).endTime = s.endTime := by
  unfold rebindOnReconfig; split <;> rfl

@[simp] theorem rebindOnReconfig_timerStarted (s : SessionState) (o : PollObs) :
    (rebindOnReconfig s o).timerStarted = s.timerStarted := by
  unfold rebindOnReconfig; split <;> rfl

@[simp] theorem rebindOnReconfig_firstChunkTime (s : SessionState) (o : PollObs) :
    (rebindOnReconfig s o).firstChunkTime = s.firstChunkTime := by
  unfold rebindOnReconfig; split <;> rfl

@[simp] theorem rebindOnReconfig_seq (s : SessionState) (o : PollObs) :
    (rebindOnReconfig s o).seq = s.seq := by
  unfold rebindOnReconfig; split <;> rfl

@[simp] theorem rebindOnReconfig_delivered (s : SessionState) (o : PollObs) :
    (rebindOnReconfig s o).delivered = s.delivered := by
  unfold rebindOnReconfig; split <;> rfl

/-- The state a delivering iteration leaves behind when the handler accepts
the chunk: cursor and sequence advanced, the chunk appended to the delivery
log, the duration timer possibly started (`s1` is the state after the
reconfiguration check). -/
def deliverState (duration : ℚ) (stream : Nat → Nat → Int)
    (s1 : SessionState) (o : PollObs) : SessionState :=
  startTimer duration
    { s1 with
      readPos := s1.readPos + s1.chunkSize
      seq := s1.seq + 1
      delivered := s1.delivered ++ [mkChunk stream s1 o] } o

@[simp] theorem deliverState_stopped (d : ℚ) (st : Nat → Nat → Int)
    (s1 : SessionState) (o : PollObs) :
    (deliverState d st s1 o).stopped = s1.stopped := by
  unfold deliverState; simp

@[simp] theorem deliverState_stoppedByHandler (d : ℚ) (st : Nat → Nat → Int)
    (s1 : SessionState) (o : PollObs) :
    (deliverState d st s1 o).stoppedByHandler = s1.stoppedByHandler := by
  unfold deliverState; simp

@[simp] theorem deliverState_seq (d : ℚ) (st : Nat → Nat → Int)
    (s1 : SessionState) (o : PollObs) :
    (deliverState d st s1 o).seq = s1.seq + 1 := by
  unfold deliverState; simp

@[simp] theorem deliverState_boundCtx (d : ℚ) (st : Nat → Nat → Int)
    (s1 : SessionState) (o : PollObs) :
    (deliverState d st s1 o).boundCtx = s1.boundCtx := by
  unfold deliverState; simp

@[simp] theorem deliverState_readPos (d : ℚ) (st : Nat → Nat → Int)
    (s1 : SessionState) (o : PollObs) :
    (deliverState d st s1 o).readPos = s1.readPos + s1.chunkSize := by
  unfold deliverState; simp

@[simp] theorem deliverState_sampleRate (d : ℚ) (st : Nat → Nat → Int)
    (s1 : SessionState) (o : PollObs) :
    (deliverState d st s1 o).sampleRate = s1.sampleRate := by
  unfold deliverState; simp

@[simp] theorem deliverState_numChannels (d : ℚ) (st : Nat → Nat → Int)
    (s1 : SessionState) (o : PollObs) :
    (deliverState d st s1 o).numChannels = s1.numChannels := by
  unfold deliverState; simp

@[simp] theorem deliverState_chunkSize (d : ℚ) (st : Nat → Nat → Int)
    (s1 : SessionState) (o : PollObs) :
    (deliverState d st s1 o).chunkSize = s1.chunkSize := by
  unfold deliverState; simp

@[simp] theorem deliverState_delivered (d : ℚ) (st : Nat → Nat → Int)
    (s1 : SessionState) (o : PollObs) :
    (deliverState d st s1 o).delivered = s1.delivered ++ [mkChunk st s1 o] := by
  unfold deliverState; simp

/-- The possible outcomes of one loop iteration, as a disjunction used by the
invariance proofs: already stopped / stopped by the loop condition / slept or
merely re-bound / delivered a chunk the handler accepted / delivered a chunk
the handler refused (stopping the session). -/
theorem sessionStep_cases (duration : ℚ) (handler : Chunk → Bool)
    (stream : Nat → Nat → Int) (s : SessionState) (o : PollObs) :
    (s.stopped = true ∧ sessionStep duration handler stream s o = s)
      ∨ (s.stopped = false ∧ beforeEnd o.now s.endTime = false
          ∧ sessionStep duration handler stream s o = { s with stopped := true })
      ∨ (s.stopped = false ∧ beforeEnd o.now s.endTime = true
          ∧ o.wpos - (rebindOnReconfig s o).readPos < (rebindOnReconfig s o).chunkSize
          ∧ sessionStep duration handler stream s o = rebindOnReconfig s o)
      ∨ (s.stopped = false ∧ beforeEnd o.now s.endTime = true
          ∧ (rebindOnReconfig s o).chunkSize ≤ o.wpos - (rebindOnReconfig s o).readPos
          ∧ ((handler (mkChunk stream (rebindOnReconfig s o) o) = true
                ∧ sessionStep duration handler stream s o
                    = deliverState duration stream (rebindOnReconfig s o) o)
              ∨ (handler (mkChunk stream (rebindOnReconfig s o) o) = false
                  ∧ sessionStep duration handler stream s o
                      = { deliverState duration stream (rebindOnReconfig s o) o with
                          stopped := true, stoppedByHandler := true }))) := by
  by_cases hstop : s.stopped
  · left
    exact ⟨hstop, by simp [sessionStep, hstop]⟩
  · right
    by_cases hend : beforeEnd o.now s.endTime
    · right
      by_cases hgate : o.wpos - (rebindOnReconfig s o).readPos < (rebindOnReconfig s o).chunkSize
      · left
        refine ⟨by simpa using hstop, hend, hgate, ?_⟩
        simp [sessionStep, hstop, hend, hgate]
      · right
        refine ⟨by simpa using hstop, hend, by omega, ?_⟩
        by_cases hh : handler (mkChunk stream (rebindOnReconfig s o) o)
        · left
          refine ⟨hh, ?_⟩
          simp [sessionStep, hstop, hend, hgate, hh, deliverState]
        · right
          refine ⟨by simpa using hh, ?_⟩
          simp [sessionStep, hstop, hend, hgate, hh, deliverState]
    · left
      refine ⟨by simpa using hstop, by simpa using hend, ?_⟩
      simp [sessionStep, hstop, hend]

/-- C6: in any session, a chunk on which the handler returned `false` is the
last chunk that session ever delivers — every delivered chunk except the last
has `handler = true`, over arbitrary continuations of the trace (so no
further chunk is delivered even if more data is available) — and if some
delivered chunk got `false` from the handler, the session is stopped. -/
theorem handler_false_ends_session (duration : ℚ) (handler : Chunk → Bool)
    (stream : Nat → Nat → Int) (ctx0 rate ch w0 : Nat) (obs : List PollObs) :
    (∀ c ∈ (runSession duration handler stream (initialState ctx0 rate ch w0)
        obs).delivered.dropLast, handler c = true)
      ∧ ((∃ c ∈ (runSession duration handler stream (initialState ctx0 rate ch w0)
            obs).delivered, handler c = false) →
          (runSession duration handler stream (initialState ctx0 rate ch w0)
            obs).stopped = true) := by
  set P : SessionState → Prop := fun s =>
    (s.stopped = false → ∀ c ∈ s.delivered, handler c = true)
      ∧ (∀ c ∈ s.delivered.dropLast, handler c = true) with hP
  have hstep : ∀ s o, P s → P (sessionStep duration handler stream s o) := by
    intro s o hs
    rcases sessionStep_cases duration handler stream s o with
      ⟨_, heq⟩ | ⟨_, _, heq⟩ | ⟨_, _, _, heq⟩ |
      ⟨hstop2, _, _, ⟨hh, heq⟩ | ⟨hh, heq⟩⟩ <;> rw [heq]
    · exact hs
    · exact ⟨fun h => (hs.1 (by simpa using h)), hs.2⟩
    · constructor
      · intro h c hc
        exact hs.1 (by simpa using h) c (by simpa using hc)
      · intro c hc
        exact hs.2 c (by simpa using hc)
    · have hall : ∀ c ∈ s.delivered, handler c = true := hs.1 hstop2
      constructor
      · intro _ c hc
        simp only [deliverState_delivered, rebindOnReconfig_delivered] at hc
        rcases List.mem_append.mp hc with h1 | h1
        · exact hall c h1
        · rw [List.mem_singleton.mp h1]; exact hh
      · intro c hc
        simp only [deliverState_delivered, rebindOnReconfig_delivered,
          List.dropLast_concat] at hc
        exact hall c hc
    · have hall : ∀ c ∈ s.delivered, handler c = true := hs.1 hstop2
      constructor
      · intro habs
        simp at habs
      · intro c hc
        simp only [deliverState_delivered, rebindOnReconfig_delivered,
          List.dropLast_concat] at hc
        exact hall c hc
  have hinit : P (initialState ctx0 rate ch w0) := by
    constructor
    · intro _ c hc
      simp [initialState] at hc
    · intro c hc
      simp [initialState] at hc
  have hrun := runSession_inv duration handler stream P hstep obs
    (initialState ctx0 rate ch w0) hinit
  refine ⟨hrun.2, ?_⟩
  intro ⟨c, hc, hcf⟩
  by_contra hstop
  have := hrun.1 (by simpa using hstop) c hc
  rw [this] at hcf
  exact Bool.true_eq_false.mp hcf

/-- Witness for C6: a handler that always refuses; after a single delivering
iteration the session is stopped. -/
theorem handler_false_ends_session_witness :
    (runSession 0 (fun _ => false) (fun _ _ => 0) (initialState 0 50 1 0)
        [⟨0, 0, 50, 1, 20, 0⟩]).stopped = true := by
  apply (handler_false_ends_session 0 (fun _ => false) (fun _ _ => 0) 0 50 1 0
    [⟨0, 0, 50, 1, 20, 0⟩]).2
  refine ⟨⟨0, 0, 5, 0, 50, 1, [0, 0, 0, 0, 0], 20⟩, by decide, rfl⟩

/-- Invariance of a predicate along a session run, when preservation is only
known for observations drawn from the trace. -/
theorem runSession_inv_of_mem (duration : ℚ) (handler : Chunk → Bool)
    (stream : Nat → Nat → Int) (P : SessionState → Prop) :
    ∀ obs : List PollObs,
      (∀ s o, o ∈ obs → P s → P (sessionStep duration handler stream s o)) →
      ∀ s, P s → P (runSession duration handler stream s obs) := by
  intro obs
  induction obs with
  | nil => intro _ s hs; exact hs
  | cons o obs ih =>
    intro hstep s hs
    exact ih (fun s o ho => hstep s o (List.mem_cons_of_mem _ ho))
      (sessionStep duration handler stream s o)
      (hstep s o (List.mem_cons_self o obs) hs)

/-- Sequence numbering: in any session (any configuration, arbitrary
reconfigurations along the trace), the chunk delivered `i`-th carries
sequence number `i`. -/
theorem sequence_numbers_are_indices (duration : ℚ) (handler : Chunk → Bool)
    (stream : Nat → Nat → Int) (ctx0 rate ch w0 : Nat) (obs : List PollObs) :
    ∀ i c, (runSession duration handler stream (initialState ctx0 rate ch w0)
        obs).delivered.get? i = some c → c.seq = i := by
  set P : SessionState → Prop := fun s =>
    s.seq = s.delivered.length
      ∧ ∀ i c, s.delivered.get? i = some c → c.seq = i with hPdef
  have hstep : ∀ s o, P s → P (sessionStep duration handler stream s o) := by
    intro s o hs
    obtain ⟨hseq, hall⟩ := hs
    rcases sessionStep_cases duration handler stream s o with
      ⟨_, heq⟩ | ⟨_, _, heq⟩ | ⟨_, _, _, heq⟩ |
      ⟨_, _, _, ⟨_, heq⟩ | ⟨_, heq⟩⟩ <;> rw [heq]
    · exact ⟨hseq, hall⟩
    · exact ⟨hseq, hall⟩
    · exact ⟨by simpa using hseq, by simpa using hall⟩
    all_goals
      constructor
    · simp [hseq]
    · intro i c hc
      simp only [deliverState_delivered, rebindOnReconfig_delivered] at hc
      rcases Nat.lt_trichotomy i s.delivered.length with hi | hi | hi
      · rw [List.get?_append hi] at hc
        exact hall i c hc
      · subst hi
        rw [List.get?_concat_length] at hc
        rw [← Option.some.inj hc]
        simpa [mkChunk] using hseq
      · have hnone : (s.delivered
            ++ [mkChunk stream (rebindOnReconfig s o) o]).get? i = none := by
          rw [List.get?_eq_none]
          simp only [List.length_append, List.length_singleton]
          omega
        rw [hnone] at hc
        exact absurd hc (by simp)
    · simp [hseq]
    · intro i c hc
      simp only [deliverState_delivered, rebindOnReconfig_delivered] at hc
      rcases Nat.lt_trichotomy i s.delivered.length with hi | hi | hi
      · rw [List.get?_append hi] at hc
        exact hall i c hc
      · subst hi
        rw [List.get?_concat_length] at hc
        rw [← Option.some.inj hc]
        simpa [mkChunk] using hseq
      · have hnone : (s.delivered
            ++ [mkChunk stream (rebindOnReconfig s o) o]).get? i = none := by
          rw [List.get?_eq_none]
          simp only [List.length_append, List.length_singleton]
          omega
        rw [hnone] at hc
        exact absurd hc (by simp)
  have hinit : P (initialState ctx0 rate ch w0) := by
    refine ⟨rfl, ?_⟩
    intro i c hc
    simp [initialState] at hc
  exact (runSession_inv duration handler stream P hstep obs
    (initialState ctx0 rate ch w0) hinit).2

/-- The facts C3 asserts of the chunk delivered `i`-th (0-based) in a
44100 Hz mono session whose device is never reconfigured and whose starting
cursor is `w0`. -/
def chunkOkAt (w0 i : Nat) (c : Chunk) : Prop :=
  c.size = 4410 ∧ c.data.length = 4410 ∧ c.seq = i
    ∧ c.startPos = w0 + 4410 * i ∧ c.startPos + 4410 ≤ c.wposAtDelivery

/-- C3: `samples_per_chunk` is 4410 for a 44100 Hz mono stream; in a session
on such a stream (no reconfiguration in the trace), every delivered chunk
holds exactly 4410 samples, the `i`-th delivered chunk carries sequence
number `i` (so the k-th chunk carries `k - 1`, starting at 0), chunks cover
consecutive 4410-sample windows from the starting cursor, each chunk is
delivered only once the observed write position is at least
`chunk start + 4410` (the `write_position - read_cursor >= samples_per_chunk`
gate), and consequently the 5th chunk (index 4) is delivered only after at
least `5 * 4410 = 22050` samples have been written past the starting
cursor. -/
theorem chunk_sizing_and_sequencing (duration : ℚ) (handler : Chunk → Bool)
    (stream : Nat → Nat → Int) (ctx0 w0 : Nat) (obs : List PollObs)
    (hnoreconf : ∀ o ∈ obs, o.devCtx = ctx0) :
    samples_per_chunk 44100 1 = 4410
      ∧ (∀ i c, (runSession duration handler stream (initialState ctx0 44100 1 w0)
            obs).delivered.get? i = some c → chunkOkAt w0 i c)
      ∧ (∀ c, (runSession duration handler stream (initialState ctx0 44100 1 w0)
            obs).delivered.get? 4 = some c → w0 + 22050 ≤ c.wposAtDelivery)
      ∧ (∀ rate2 ch2 ctx2 w2 (obs2 : List PollObs) i c,
          (runSession duration handler stream (initialState ctx2 rate2 ch2 w2)
            obs2).delivered.get? i = some c → c.seq = i) := by
  have hspc : samples_per_chunk 44100 1 = 4410 := rfl
  set P : SessionState → Prop := fun s =>
    s.boundCtx = ctx0 ∧ s.chunkSize = 4410 ∧ s.sampleRate = 44100
      ∧ s.numChannels = 1 ∧ s.seq = s.delivered.length
      ∧ s.readPos = w0 + 4410 * s.delivered.length
      ∧ ∀ i c, s.delivered.get? i = some c → chunkOkAt w0 i c with hPdef
  have hstep : ∀ s o, o ∈ obs → P s → P (sessionStep duration handler stream s o) := by
    intro s o ho hs
    obtain ⟨hb, hcs, hsr, hnc, hseq, hrp, hall⟩ := hs
    have hctx : o.devCtx = s.boundCtx := by rw [hb]; exact hnoreconf o ho
    have hreb : rebindOnReconfig s o = s := by
      unfold rebindOnReconfig; rw [if_pos hctx]
    rcases sessionStep_cases duration handler stream s o with
      ⟨_, heq⟩ | ⟨_, _, heq⟩ | ⟨_, _, _, heq⟩ |
      ⟨_, _, hgate, ⟨_, heq⟩ | ⟨_, heq⟩⟩
    · rw [heq]
      exact ⟨hb, hcs, hsr, hnc, hseq, hrp, hall⟩
    · rw [heq]
      exact ⟨hb, hcs, hsr, hnc, hseq, hrp, hall⟩
    · rw [heq, hreb]
      exact ⟨hb, hcs, hsr, hnc, hseq, hrp, hall⟩
    all_goals rw [hreb] at hgate heq
    all_goals rw [heq]
    all_goals
      simp only [hcs] at hgate
      have hwpos : s.readPos + 4410 ≤ o.wpos := by omega
      have hcok : chunkOkAt w0 s.delivered.length (mkChunk stream s o) := by
        refine ⟨by simp [mkChunk, hcs], by simp [mkChunk, hcs],
          by simp [mkChunk, hseq], by simp [mkChunk, hrp], ?_⟩
        simp only [mkChunk, hrp]
        omega
      have hP2 : P (deliverState duration stream s o) := by
        refine ⟨by simp [hb], by simp [hcs], by simp [hsr], by simp [hnc], ?_, ?_, ?_⟩
        · simp [hseq]
        · simp only [deliverState_readPos, deliverState_delivered]
          simp only [List.length_append, List.length_singleton, hrp, hcs]
          ring
        · intro i c2 hc2
          simp only [deliverState_delivered] at hc2
          rcases Nat.lt_trichotomy i s.delivered.length with hi | hi | hi
          · rw [List.get?_append hi] at hc2
            exact hall i c2 hc2
          · subst hi
            rw [List.get?_concat_length] at hc2
            rw [← Option.some.inj hc2]
            exact hcok
          · have hnone : (s.delivered ++ [mkChunk stream s o]).get? i = none := by
              rw [List.get?_eq_none]
              simp only [List.length_append, List.length_singleton]
              omega
            rw [hnone] at hc2
            exact absurd hc2 (by simp)
        done
    · exact hP2
    · exact hP2
  have hinit : P (initialState ctx0 44100 1 w0) := by
    refine ⟨rfl, hspc, rfl, rfl, rfl, by simp [initialState], ?_⟩
    intro i c hc
    simp [initialState] at hc
  have hrun := runSession_inv_of_mem duration handler stream P obs hstep
    (initialState ctx0 44100 1 w0) hinit
  refine ⟨hspc, hrun.2.2.2.2.2.2, ?_, ?_⟩
  · intro c hc
    have h4 := hrun.2.2.2.2.2.2 4 c hc
    obtain ⟨_, _, _, hsp, hwp⟩ := h4
    omega
  · intro rate2 ch2 ctx2 w2 obs2 i c hc
    exact sequence_numbers_are_indices duration handler stream ctx2 rate2 ch2 w2 obs2 i c hc

set_option maxRecDepth 4000 in
/-- Witness for C3: a single delivering iteration of a 44100 Hz mono session
starting at cursor 0, with 9000 samples available: the delivered chunk has
4410 samples, sequence number 0, covers window `[0, 4410)`, and was delivered
at observed write position 9000 ≥ 4410. -/
theorem chunk_sizing_and_sequencing_witness :
    chunkOkAt 0 0
      (⟨0, 0, 4410, 0, 44100, 1, (List.range 4410).map (fun _ => 0), 9000⟩ : Chunk) := by
  have h := chunk_sizing_and_sequencing 0 (fun _ => true) (fun _ _ => 0) 0 0
    [⟨0, 0, 44100, 1, 9000, 0⟩] (by intro o ho; rw [List.mem_singleton.mp ho])
  exact h.2.1 0 _ rfl

/-- C5: on a poll iteration that observes a context different from the bound
one, the session re-binds to the observed context, refreshes the cached
configuration and recomputes the chunk size from it, and resets the cursor to
the new context's observed write position (exactly when the iteration
delivered nothing; a delivering iteration reads its chunk starting precisely
at that write position, from the new context).  Moreover, in any session,
every delivered chunk's payload is read from the single context recorded in
it — `size` consecutive samples of that one context starting at the chunk's
start position — so no chunk mixes data of two contexts. -/
theorem reconfig_rebind_and_single_context (duration : ℚ) (handler : Chunk → Bool)
    (stream : Nat → Nat → Int) :
    (∀ s o, s.stopped = false → beforeEnd o.now s.endTime = true →
        o.devCtx ≠ s.boundCtx →
          (sessionStep duration handler stream s o).boundCtx = o.devCtx
          ∧ (sessionStep duration handler stream s o).sampleRate = o.devRate
          ∧ (sessionStep duration handler stream s o).numChannels = o.devCh
          ∧ (sessionStep duration handler stream s o).chunkSize
              = samples_per_chunk o.devRate o.devCh
          ∧ ((sessionStep duration handler stream s o).delivered = s.delivered →
              (sessionStep duration handler stream s o).readPos = o.wpos)
          ∧ (∀ c, (sessionStep duration handler stream s o).delivered
                = s.delivered ++ [c] → c.ctxId = o.devCtx ∧ c.startPos = o.wpos))
      ∧ (∀ ctx0 rate ch w0 obs c,
          c ∈ (runSession duration handler stream (initialState ctx0 rate ch w0)
            obs).delivered →
          c.data = (List.range c.size).map fun i => stream c.ctxId (c.startPos + i)) := by
  constructor
  · intro s o hstop hend hne
    have hreb : rebindOnReconfig s o =
        { s with
          sampleRate := o.devRate, numChannels := o.devCh
          chunkSize := samples_per_chunk o.devRate o.devCh
          boundCtx := o.devCtx, readPos := o.wpos } := by
      unfold rebindOnReconfig
      rw [if_neg hne]
    rcases sessionStep_cases duration handler stream s o with
      ⟨h1, _⟩ | ⟨_, h2, _⟩ | ⟨_, _, _, heq⟩ |
      ⟨_, _, _, ⟨_, heq⟩ | ⟨_, heq⟩⟩
    · rw [hstop] at h1; exact absurd h1 (by simp)
    · rw [hend] at h2; exact absurd h2 (by simp)
    · rw [heq, hreb]
      refine ⟨rfl, rfl, rfl, rfl, fun _ => rfl, ?_⟩
      intro c hc
      have : s.delivered.length = (s.delivered ++ [c]).length := by rw [← hc]
      simp at this
    · rw [heq, hreb]
      refine ⟨by simp, by simp, by simp, by simp, ?_, ?_⟩
      · intro hc
        simp only [deliverState_delivered] at hc
        have := congrArg List.length hc
        simp at this
      · intro c hc
        simp only [deliverState_delivered] at hc
        have hx : mkChunk stream
            { s with
              sampleRate := o.devRate, numChannels := o.devCh
              chunkSize := samples_per_chunk o.devRate o.devCh
              boundCtx := o.devCtx, readPos := o.wpos } o = c :=
          List.singleton_injective (List.append_cancel_left hc)
        rw [← hx]
        exact ⟨rfl, rfl⟩
    · rw [heq, hreb]
      refine ⟨by simp, by simp, by simp, by simp, ?_, ?_⟩
      · intro hc
        simp only [deliverState_delivered] at hc
        have := congrArg List.length hc
        simp at this
      · intro c hc
        simp only [deliverState_delivered] at hc
        have hx : mkChunk stream
            { s with
              sampleRate := o.devRate, numChannels := o.devCh
              chunkSize := samples_per_chunk o.devRate o.devCh
              boundCtx := o.devCtx, readPos := o.wpos } o = c :=
          List.singleton_injective (List.append_cancel_left hc)
        rw [← hx]
        exact ⟨rfl, rfl⟩
  · intro ctx0 rate ch w0 obs
    set P : SessionState → Prop := fun s => ∀ c ∈ s.delivered,
      c.data = (List.range c.size).map fun i => stream c.ctxId (c.startPos + i) with hPdef
    have hstep : ∀ s o, P s → P (sessionStep duration handler stream s o) := by
      intro s o hs
      rcases sessionStep_cases duration handler stream s o with
        ⟨_, heq⟩ | ⟨_, _, heq⟩ | ⟨_, _, _, heq⟩ |
        ⟨_, _, _, ⟨_, heq⟩ | ⟨_, heq⟩⟩ <;> rw [heq]
      · exact hs
      · exact hs
      · intro c hc
        exact hs c (by simpa using hc)
      all_goals
        intro c hc
        simp only [deliverState_delivered, rebindOnReconfig_delivered] at hc
        rcases List.mem_append.mp hc with h1 | h1
        · exact hs c h1
        · rw [List.mem_singleton.mp h1]
          simp [mkChunk]
    have hinit : P (initialState ctx0 rate ch w0) := by
      intro c hc
      simp [initialState] at hc
    exact runSession_inv duration handler stream P hstep obs _ hinit

/-- Witness for C5: a session bound to context 0 observes context 1 with
configuration 48000 Hz stereo at write position 777 and no chunk available:
it re-binds to context 1, recomputes the chunk size to
`samples_per_chunk 48000 2 = 9600`, and resets its cursor to 777. -/
theorem reconfig_rebind_and_single_context_witness :
    (sessionStep 0 (fun _ => true) (fun _ _ => 0) (initialState 0 44100 1 0)
        ⟨0, 1, 48000, 2, 777, 0⟩).boundCtx = 1
      ∧ (sessionStep 0 (fun _ => true) (fun _ _ => 0) (initialState 0 44100 1 0)
          ⟨0, 1, 48000, 2, 777, 0⟩).chunkSize = 9600
      ∧ (sessionStep 0 (fun _ => true) (fun _ _ => 0) (initialState 0 44100 1 0)
          ⟨0, 1, 48000, 2, 777, 0⟩).readPos = 777 := by
  have h := (reconfig_rebind_and_single_context 0 (fun _ => true) (fun _ _ => 0)).1
    (initialState 0 44100 1 0) ⟨0, 1, 48000, 2, 777, 0⟩ rfl rfl (by decide)
  refine ⟨h.1, ?_, h.2.2.2.2.1 (by decide)⟩
  rw [h.2.2.2.1]
  decide

/-- Case analysis of the duration-timer start (`src/microphone.cpp`,
lines 292-297). -/
theorem startTimer_cases (duration : ℚ) (s : SessionState) (o : PollObs) :
    (s.timerStarted = false ∧ 0 < duration
        ∧ startTimer duration s o = { s with
            endTime := some (o.deliverNow + durationBoundNs duration)
            timerStarted := true, firstChunkTime := some o.deliverNow })
      ∨ ((s.timerStarted = true ∨ ¬ 0 < duration)
          ∧ startTimer duration s o = s) := by
  by_cases h : s.timerStarted = false ∧ 0 < duration
  · left
    refine ⟨h.1, h.2, ?_⟩
    unfold startTimer
    rw [if_pos h]
  · right
    constructor
    · by_cases ht : s.timerStarted
      · exact Or.inl ht
      · right
        intro hd
        exact h ⟨by simpa using ht, hd⟩
    · unfold startTimer
      rw [if_neg h]

/-- C10: with `duration_seconds > 0`, the session deadline (`end_time`) is
only ever set to the steady-clock instant at which the first chunk was
delivered plus the (millisecond-truncated) duration bound; hence whenever the
deadline exists at least one chunk has been delivered, and a session that
stopped for a reason other than the handler's refusal — i.e. because the loop
condition `now < end_time` failed — has delivered at least one chunk: the
duration bound never ends a session before the first chunk. -/
theorem duration_deadline_after_first_chunk (duration : ℚ) (handler : Chunk → Bool)
    (stream : Nat → Nat → Int) (ctx0 rate ch w0 : Nat) (obs : List PollObs)
    (hdur : 0 < duration) :
    (∀ e, (runSession duration handler stream (initialState ctx0 rate ch w0)
          obs).endTime = some e →
        (runSession duration handler stream (initialState ctx0 rate ch w0)
            obs).delivered ≠ []
          ∧ ∃ t, (runSession duration handler stream (initialState ctx0 rate ch w0)
                obs).firstChunkTime = some t
              ∧ e = t + durationBoundNs duration)
      ∧ ((runSession duration handler stream (initialState ctx0 rate ch w0)
            obs).stopped = true →
          (runSession duration handler stream (initialState ctx0 rate ch w0)
            obs).stoppedByHandler = false →
          (runSession duration handler stream (initialState ctx0 rate ch w0)
            obs).delivered ≠ []) := by
  set P : SessionState → Prop := fun s =>
    (s.timerStarted = false → s.endTime = none)
      ∧ (∀ e, s.endTime = some e → s.delivered ≠ []
          ∧ ∃ t, s.firstChunkTime = some t ∧ e = t + durationBoundNs duration)
      ∧ (s.stopped = true → s.stoppedByHandler = false → s.delivered ≠ []) with hPdef
  have hstep : ∀ s o, P s → P (sessionStep duration handler stream s o) := by
    intro s o hs
    obtain ⟨hs1, hs2, hs3⟩ := hs
    rcases sessionStep_cases duration handler stream s o with
      ⟨_, heq⟩ | ⟨_, hend, heq⟩ | ⟨_, _, _, heq⟩ |
      ⟨hstop, _, _, ⟨_, heq⟩ | ⟨_, heq⟩⟩ <;> rw [heq]
    · exact ⟨hs1, hs2, hs3⟩
    · -- stopped by the loop condition: `beforeEnd` only fails on a set deadline
      refine ⟨hs1, hs2, ?_⟩
      intro _ hbh
      match hsome : s.endTime with
      | none =>
        rw [hsome] at hend
        simp [beforeEnd] at hend
      | some e =>
        exact (hs2 e hsome).1
    · exact ⟨by simpa using hs1, by simpa using hs2, by simpa using hs3⟩
    all_goals
      rcases startTimer_cases duration
        { rebindOnReconfig s o with
          readPos := (rebindOnReconfig s o).readPos + (rebindOnReconfig s o).chunkSize
          seq := (rebindOnReconfig s o).seq + 1
          delivered := (rebindOnReconfig s o).delivered
            ++ [mkChunk stream (rebindOnReconfig s o) o] } o with
        ⟨ht, _, heq2⟩ | ⟨ht, heq2⟩
    · rw [deliverState, heq2]
      refine ⟨by simp, ?_, by simp⟩
      intro e he
      simp only at he
      refine ⟨by simp, o.deliverNow, rfl, ?_⟩
      rw [Option.some.inj he]
    · rw [deliverState, heq2]
      simp only [rebindOnReconfig_timerStarted] at ht
      rcases ht with ht | ht
      · refine ⟨by simp [ht], ?_, by simp⟩
        intro e he
        simp only [rebindOnReconfig_endTime] at he
        refine ⟨by simp, ?_⟩
        obtain ⟨_, t, hft, het⟩ := hs2 e he
        exact ⟨t, by simpa using hft, het⟩
      · exact absurd hdur ht
    · rw [deliverState, heq2]
      refine ⟨by simp, ?_, by simp⟩
      intro e he
      simp only at he
      refine ⟨by simp, o.deliverNow, rfl, ?_⟩
      rw [Option.some.inj he]
    · rw [deliverState, heq2]
      simp only [rebindOnReconfig_timerStarted] at ht
      rcases ht with ht | ht
      · refine ⟨by simp [ht], ?_, by simp⟩
        intro e he
        simp only [rebindOnReconfig_endTime] at he
        refine ⟨by simp, ?_⟩
        obtain ⟨_, t, hft, het⟩ := hs2 e he
        exact ⟨t, by simpa using hft, het⟩
      · exact absurd hdur ht
  have hinit : P (initialState ctx0 rate ch w0) := by
    refine ⟨fun _ => rfl, ?_, ?_⟩
    · intro e he
      exact absurd he (by simp [initialState])
    · intro habs
      exact absurd habs (by simp [initialState])
  have hrun := runSession_inv duration handler stream P hstep obs
    (initialState ctx0 rate ch w0) hinit
  exact ⟨hrun.2.1, hrun.2.2⟩

/-- Witness for C10: duration 1 s; the first iteration delivers a chunk at
steady-clock 0 (setting the deadline to 10^9 ns), the second iteration
observes steady-clock 5·10^9 past the deadline and stops; the stopped session
has delivered one chunk. -/
theorem duration_deadline_after_first_chunk_witness :
    (runSession 1 (fun _ => true) (fun _ _ => 0) (initialState 0 50 1 0)
        [⟨0, 0, 50, 1, 20, 0⟩, ⟨5000000000, 0, 50, 1, 20, 0⟩]).stopped = true
      ∧ (runSession 1 (fun _ => true) (fun _ _ => 0) (initialState 0 50 1 0)
          [⟨0, 0, 50, 1, 20, 0⟩, ⟨5000000000, 0, 50, 1, 20, 0⟩]).delivered ≠ []
      ∧ (runSession 1 (fun _ => true) (fun _ _ => 0) (initialState 0 50 1 0)
          [⟨0, 0, 50, 1, 20, 0⟩, ⟨5000000000, 0, 50, 1, 20, 0⟩]).endTime
        = some 1000000000 := by
  have h := duration_deadline_after_first_chunk 1 (fun _ => true) (fun _ _ => 0)
    0 50 1 0 [⟨0, 0, 50, 1, 20, 0⟩, ⟨5000000000, 0, 50, 1, 20, 0⟩] (by norm_num)
  exact ⟨by decide, h.2 (by decide) (by decide), by decide⟩

/-- C7 evaluation: the prologue of `get_audio` at its failing input.  An
unsupported codec is rejected before `active_streams_` is incremented (the
counter is unchanged), but a supported codec with a degenerate configuration
(`samples_per_chunk = 0`, e.g. sample rate 3 mono) throws only after the
increment and without any matching decrement: the counter leaks from 0 to 1
across the throwing call, contradicting the header comment that
`active_streams_` is the count of active `get_audio` calls
(`src/microphone.hpp`, lines 80-81). -/
theorem getAudioSetup_counter_leak :
    getAudioSetup PCM_16 3 1 0 = (1, none)
      ∧ getAudioSetup "mp3" 3 1 0 = (0, none)
      ∧ getAudioSetup PCM_16 44100 1 0 = (1, some 4410) :=
  ⟨rfl, rfl, rfl⟩

end AudioVerif
